import Mathlib

/-!
Shallow embedding of `src/storage.py` (class `Storage`): a commodity
storage ledger over a calendar of day slots, with inject/withdraw
operations validated against capacity and rate limits, cost accumulators,
an optional prediction (price) mode, and reporting functions.

Dates are modelled as integers (absolute day numbers; the spec fixes
dates to whole calendar days), volumes, costs and prices as rationals.
Fallible Python code (raised exceptions) is modelled with `Except`.
-/

namespace CommodityStorage

/-- Errors raised by the Python code (each `raise ValueError(...)` site,
plus the `IndexError` a missing calendar slot or empty operation list
produces, and the failure of `gross_gain` outside prediction mode). -/
inductive StorageError where
  | capacityExceeded (vol : ℚ) (date : ℤ)
  | rateExceeded (date : ℤ)
  | insufficientVolume (vol : ℚ) (date : ℤ)
  | unbalancedStorage (residual : ℚ)
  | indexError (t : ℤ)
  | missingPriceFunc (date : ℤ)
  | predictionModeRequired
deriving Repr, DecidableEq

/-- The `Storage` object: configuration fields set in `__init__`, the
prediction state, the cost/balance accumulators, and the state created by
`process` (`calendar`, `first_operation`, `last_operation`).  The
calendar is the `vol` column of the dataframe, indexed by the `t`
column, i.e. slot `i` holds the volume at day offset `t = i`. -/
structure Storage where
  max_vol : ℚ
  rate : ℚ
  inj_cost : ℚ
  wit_cost : ℚ
  cost_per_day_per_unit : ℚ
  predict : Bool := false
  price_func : Option (ℤ → ℚ) := none
  cost_inj : ℚ := 0
  cost_wit : ℚ := 0
  balance : ℚ := 0
  calendar : List ℚ := []
  first_operation : ℤ := 0
  last_operation : ℤ := 0

/-- `self.calendar.loc[self.calendar["t"] == t, "vol"].iloc[0]`:
look up the volume at day offset `t`; `none` models the `IndexError`
raised when no row has that `t`. -/
def calLookup (cal : List ℚ) (t : ℤ) : Option ℚ :=
  if 0 ≤ t then cal[t.toNat]? else none

/-- `self.calendar.loc[self.calendar["t"] >= t, "vol"] += vol`:
add `v` to every slot whose day offset is `≥ t`. -/
def calAddFrom (v : ℚ) : ℤ → List ℚ → List ℚ
  | _, [] => []
  | t, x :: xs => (if t ≤ 0 then x + v else x) :: calAddFrom v (t - 1) xs

/-- `Storage._date_to_int`: days since the first operation. -/
def Storage.date_to_int (s : Storage) (date : ℤ) : ℤ :=
  date - s.first_operation

/-- `Storage.inject(vol, date)`: capacity check first, then rate check,
then suffix update of the calendar, injection-cost accrual, and (in
prediction mode) a balance decrease by `price(date) * vol`. -/
def Storage.inject (s : Storage) (vol : ℚ) (date : ℤ) :
    Except StorageError Storage :=
  let t := s.date_to_int date
  match calLookup s.calendar t with
  | none => .error (.indexError t)
  | some cur =>
    if cur + vol > s.max_vol then .error (.capacityExceeded vol date)
    else if vol > s.rate then .error (.rateExceeded date)
    else
      let s1 : Storage :=
        { s with calendar := calAddFrom vol t s.calendar,
                 cost_inj := s.cost_inj + s.inj_cost * vol }
      if s.predict then
        match s.price_func with
        | none => .error (.missingPriceFunc date)
        | some f => .ok { s1 with balance := s1.balance - f date * vol }
      else .ok s1

/-- `Storage.withdraw(vol, date)`: sufficiency check first, then rate
check, then suffix decrease of the calendar, withdrawal-cost accrual,
and (in prediction mode) a balance increase by `price(date) * vol`. -/
def Storage.withdraw (s : Storage) (vol : ℚ) (date : ℤ) :
    Except StorageError Storage :=
  let t := s.date_to_int date
  match calLookup s.calendar t with
  | none => .error (.indexError t)
  | some cur =>
    if cur - vol < 0 then .error (.insufficientVolume vol date)
    else if vol > s.rate then .error (.rateExceeded date)
    else
      let s1 : Storage :=
        { s with calendar := calAddFrom (-vol) t s.calendar,
                 cost_wit := s.cost_wit + s.wit_cost * vol }
      if s.predict then
        match s.price_func with
        | none => .error (.missingPriceFunc date)
        | some f => .ok { s1 with balance := s1.balance + f date * vol }
      else .ok s1

/-- `Storage.prediction_on(func)`. -/
def Storage.prediction_on (s : Storage) (func : ℤ → ℚ) : Storage :=
  { s with price_func := some func, predict := true }

/-- `Storage.prediction_off()`: only `self.predict = False`; the
`price_func` attribute is left in place. -/
def Storage.prediction_off (s : Storage) : Storage :=
  { s with predict := false }

/-- One row of the merged dataframe in `process`: a date, the `inj`
direction flag, and a volume. -/
structure Operation where
  date : ℤ
  inj : Bool
  vol : ℚ
deriving Repr

/-- The per-row dispatch of the `process` loop. -/
def Storage.applyOp (s : Storage) (op : Operation) :
    Except StorageError Storage :=
  if op.inj then s.inject op.vol op.date else s.withdraw op.vol op.date

/-- The `process` loop: apply each operation in order, stopping at the
first error. -/
def Storage.applyOps (s : Storage) : List Operation →
    Except StorageError Storage
  | [] => .ok s
  | op :: rest =>
    match s.applyOp op with
    | .error e => .error e
    | .ok s1 => s1.applyOps rest

/-- The state of `process` just after `first_operation`,
`last_operation` and the zero-initialized calendar of
`(last - first) + 2` slots have been stored. -/
def Storage.initProcessed (s : Storage) (first last : ℤ) : Storage :=
  { s with first_operation := first, last_operation := last,
           calendar := List.replicate (last - first + 2).toNat 0 }

/-- The tail of `process` once the sorted operation list and the
first/last operation dates are known: allocate the zero calendar of
`(last - first) + 2` slots, apply all operations, then check that the
residual volume one day past the last operation is zero. -/
def Storage.processSorted (s : Storage) (sorted : List Operation)
    (first last : ℤ) : Except StorageError Storage :=
  let interval := last - first
  let s1 := s.initProcessed first last
  match s1.applyOps sorted with
  | .error e => .error e
  | .ok s2 =>
    match calLookup s2.calendar (interval + 1) with
    | none => .error (.indexError (interval + 1))
    | some r => if r ≠ 0 then .error (.unbalancedStorage r) else .ok s2

/-- Build the merged operation list of `process`: injection rows (with
`inj = True`) followed by withdrawal rows, pairing parallel date and
volume lists. -/
def mkOps (inj_dates : List ℤ) (wit_dates : List ℤ)
    (inj_vols : List ℚ) (wit_vols : List ℚ) : List Operation :=
  (inj_dates.zip inj_vols).map (fun p => ⟨p.1, true, p.2⟩) ++
    (wit_dates.zip wit_vols).map (fun p => ⟨p.1, false, p.2⟩)

/-- The sort in `process` (`df.sort_values(by='date')`): ascending by
date.  Modelled with a stable comparison sort; the tie order of the
library sort is not specified by the source. -/
def sortOps (ops : List Operation) : List Operation :=
  List.insertionSort (fun a b => a.date ≤ b.date) ops

/-- `Storage.process(inj_dates, wit_dates, inj_vols, wit_vols)`: merge,
sort by date, record `first_operation`/`last_operation` from the ends of
the sorted list, build the calendar, apply all operations, then check
the residual.  An empty operation list makes `df['date'].iloc[0]`
raise `IndexError`. -/
def Storage.process (s : Storage) (inj_dates : List ℤ)
    (wit_dates : List ℤ) (inj_vols : List ℚ) (wit_vols : List ℚ) :
    Except StorageError Storage :=
  let sorted := sortOps (mkOps inj_dates wit_dates inj_vols wit_vols)
  match sorted.head?, sorted.getLast? with
  | some f, some l => s.processSorted sorted f.date l.date
  | _, _ => .error (.indexError 0)

/-- The record printed by `Storage.cost_overview`. -/
structure CostOverview where
  cost_inj : ℚ
  cost_wit : ℚ
  cost_storage : ℚ
  n_days : ℕ
  total_cost : ℚ
  avg_cost : ℚ
  avg_vol : ℚ
deriving Repr

/-- `Storage.cost_overview()` as a structured result. -/
def Storage.cost_overview (s : Storage) : CostOverview :=
  let n_days := s.calendar.countP (fun v => decide (v ≠ 0))
  let avg_vol := s.calendar.sum / (n_days : ℚ)
  let cost_storage := s.cost_per_day_per_unit * avg_vol * (n_days : ℚ)
  let total_cost := s.cost_inj + s.cost_wit + cost_storage
  let avg_cost := total_cost / (n_days : ℚ)
  ⟨s.cost_inj, s.cost_wit, cost_storage, n_days, total_cost, avg_cost,
    avg_vol⟩

/-- `Storage.gross_gain()`: fails unless prediction mode is currently
on, else reports `balance`. -/
def Storage.gross_gain (s : Storage) : Except StorageError ℚ :=
  if s.predict then .ok s.balance else .error .predictionModeRequired

/-- The record printed by `Storage.net_gain`. -/
structure NetGain where
  balance : ℚ
  total_cost : ℚ
  net : ℚ
deriving Repr

/-- `Storage.net_gain()` as a structured result; its `cost_storage` is
`cost_per_day_per_unit * avg_vol`, not multiplied by `n_days`. -/
def Storage.net_gain (s : Storage) : NetGain :=
  let n_days := s.calendar.countP (fun v => decide (v ≠ 0))
  let avg_vol := s.calendar.sum / (n_days : ℚ)
  let cost_storage := s.cost_per_day_per_unit * avg_vol
  let total_cost := s.cost_inj + s.cost_wit + cost_storage
  ⟨s.balance, total_cost, s.balance - total_cost⟩

/-! ### Basic lemmas about the calendar primitives -/

theorem calAddFrom_length (v : ℚ) (t : ℤ) (cal : List ℚ) :
    (calAddFrom v t cal).length = cal.length := by
  induction cal generalizing t with
  | nil => rfl
  | cons x xs ih => simp [calAddFrom, ih]

theorem calAddFrom_getElem? (v : ℚ) (t : ℤ) (cal : List ℚ) (i : ℕ) :
    (calAddFrom v t cal)[i]? =
      (cal[i]?).map (fun x => if t ≤ (i : ℤ) then x + v else x) := by
  induction cal generalizing t i with
  | nil => simp [calAddFrom]
  | cons x xs ih =>
    cases i with
    | zero => simp [calAddFrom]
    | succ n =>
      have hc : (t - 1 ≤ (n : ℤ)) ↔ (t ≤ ((n + 1 : ℕ) : ℤ)) := by
        push_cast
        omega
      simp only [calAddFrom, List.getElem?_cons_succ, ih (t - 1) n]
      cases h : xs[n]? <;> simp [hc]

theorem calLookup_natCast (cal : List ℚ) (i : ℕ) :
    calLookup cal (i : ℤ) = cal[i]? := by
  simp [calLookup]

theorem calLookup_eq_some {cal : List ℚ} {t : ℤ} {x : ℚ}
    (h : calLookup cal t = some x) :
    0 ≤ t ∧ cal[t.toNat]? = some x := by
  unfold calLookup at h
  split at h
  · exact ⟨by assumption, h⟩
  · exact absurd h (by simp)

/-! ### Inversion lemmas for successful `inject` and `withdraw` -/

theorem inject_ok {s s' : Storage} {vol : ℚ} {d : ℤ}
    (h : s.inject vol d = .ok s') :
    ∃ cur, calLookup s.calendar (s.date_to_int d) = some cur ∧
      cur + vol ≤ s.max_vol ∧ vol ≤ s.rate ∧
      s'.calendar = calAddFrom vol (s.date_to_int d) s.calendar ∧
      s'.cost_inj = s.cost_inj + s.inj_cost * vol ∧
      s'.cost_wit = s.cost_wit ∧
      s'.max_vol = s.max_vol ∧ s'.rate = s.rate ∧
      s'.inj_cost = s.inj_cost ∧ s'.wit_cost = s.wit_cost ∧
      s'.cost_per_day_per_unit = s.cost_per_day_per_unit ∧
      s'.predict = s.predict ∧ s'.price_func = s.price_func ∧
      s'.first_operation = s.first_operation ∧
      s'.last_operation = s.last_operation ∧
      (s.predict = false → s'.balance = s.balance) ∧
      (∀ f, s.predict = true → s.price_func = some f →
        s'.balance = s.balance - f d * vol) := by
  simp only [Storage.inject] at h
  split at h
  · exact Except.noConfusion h
  next cur hc =>
    split at h
    · exact Except.noConfusion h
    next hcap =>
      split at h
      · exact Except.noConfusion h
      next hrate =>
        refine ⟨cur, hc, by linarith [not_lt.mp hcap], le_of_not_lt hrate,
          ?_⟩
        split at h
        next hpred =>
          split at h
          · exact Except.noConfusion h
          next f hf =>
            cases h
            simp_all
        next hpred =>
          cases h
          simp_all

theorem withdraw_ok {s s' : Storage} {vol : ℚ} {d : ℤ}
    (h : s.withdraw vol d = .ok s') :
    ∃ cur, calLookup s.calendar (s.date_to_int d) = some cur ∧
      0 ≤ cur - vol ∧ vol ≤ s.rate ∧
      s'.calendar = calAddFrom (-vol) (s.date_to_int d) s.calendar ∧
      s'.cost_wit = s.cost_wit + s.wit_cost * vol ∧
      s'.cost_inj = s.cost_inj ∧
      s'.max_vol = s.max_vol ∧ s'.rate = s.rate ∧
      s'.inj_cost = s.inj_cost ∧ s'.wit_cost = s.wit_cost ∧
      s'.cost_per_day_per_unit = s.cost_per_day_per_unit ∧
      s'.predict = s.predict ∧ s'.price_func = s.price_func ∧
      s'.first_operation = s.first_operation ∧
      s'.last_operation = s.last_operation ∧
      (s.predict = false → s'.balance = s.balance) ∧
      (∀ f, s.predict = true → s.price_func = some f →
        s'.balance = s.balance + f d * vol) := by
  simp only [Storage.withdraw] at h
  split at h
  · exact Except.noConfusion h
  next cur hc =>
    split at h
    · exact Except.noConfusion h
    next hins =>
      split at h
      · exact Except.noConfusion h
      next hrate =>
        refine ⟨cur, hc, by linarith [not_lt.mp hins], le_of_not_lt hrate,
          ?_⟩
        split at h
        next hpred =>
          split at h
          · exact Except.noConfusion h
          next f hf =>
            cases h
            simp_all
        next hpred =>
          cases h
          simp_all

/-- Fields preserved by one step of the `process` loop. -/
theorem applyOp_preserves {s s' : Storage} {op : Operation}
    (h : s.applyOp op = .ok s') :
    s'.max_vol = s.max_vol ∧ s'.rate = s.rate ∧
    s'.inj_cost = s.inj_cost ∧ s'.wit_cost = s.wit_cost ∧
    s'.cost_per_day_per_unit = s.cost_per_day_per_unit ∧
    s'.predict = s.predict ∧ s'.price_func = s.price_func ∧
    s'.first_operation = s.first_operation ∧
    s'.last_operation = s.last_operation ∧
    s'.calendar.length = s.calendar.length := by
  unfold Storage.applyOp at h
  split at h
  · obtain ⟨cur, _, _, _, hcal, _, _, h7, h8, h9, h10, h11, h12, h13,
      h14, h15, _⟩ := inject_ok h
    exact ⟨h7, h8, h9, h10, h11, h12, h13, h14, h15,
      by rw [hcal, calAddFrom_length]⟩
  · obtain ⟨cur, _, _, _, hcal, _, _, h7, h8, h9, h10, h11, h12, h13,
      h14, h15, _⟩ := withdraw_ok h
    exact ⟨h7, h8, h9, h10, h11, h12, h13, h14, h15,
      by rw [hcal, calAddFrom_length]⟩

/-! ### Volume-range invariant machinery (claim C1) -/

/-- Every calendar slot holds a volume in `[0, mv]`. -/
def slotsInRange (cal : List ℚ) (mv : ℚ) : Prop :=
  ∀ x ∈ cal, 0 ≤ x ∧ x ≤ mv

/-- Every slot at day offset `≥ t` holds exactly `c`. -/
def tailConst (cal : List ℚ) (t : ℤ) (c : ℚ) : Prop :=
  ∀ i : ℕ, t ≤ (i : ℤ) → i < cal.length → cal[i]? = some c

theorem tailConst_mono {cal : List ℚ} {t t' : ℤ} {c : ℚ}
    (h : tailConst cal t c) (ht : t ≤ t') : tailConst cal t' c :=
  fun i hi hl => h i (le_trans ht hi) hl

theorem tailConst_lookup {cal : List ℚ} {t : ℤ} {c cur : ℚ}
    (htc : tailConst cal t c) (hc : calLookup cal t = some cur) :
    cur = c := by
  obtain ⟨ht, hget⟩ := calLookup_eq_some hc
  have hlen : t.toNat < cal.length := by
    by_contra hge
    rw [List.getElem?_eq_none (le_of_not_lt hge)] at hget
    exact Option.noConfusion hget
  have := htc t.toNat (by omega) hlen
  rw [hget] at this
  exact Option.some.inj this

theorem inject_step {s s' : Storage} {vol : ℚ} {d : ℤ} {c : ℚ}
    (hr : slotsInRange s.calendar s.max_vol)
    (htc : tailConst s.calendar (s.date_to_int d) c)
    (hv : 0 ≤ vol)
    (h : s.inject vol d = .ok s') :
    slotsInRange s'.calendar s.max_vol ∧
    tailConst s'.calendar (s.date_to_int d) (c + vol) := by
  obtain ⟨cur, hc, hcap, -, hcal, -⟩ := inject_ok h
  have hcc : cur = c := tailConst_lookup htc hc
  subst hcc
  constructor
  · intro x hx
    obtain ⟨i, hget⟩ := List.mem_iff_getElem?.mp hx
    rw [hcal, calAddFrom_getElem?] at hget
    cases hx' : s.calendar[i]? with
    | none => rw [hx'] at hget; exact Option.noConfusion hget
    | some y =>
      rw [hx'] at hget
      have hylen : i < s.calendar.length := by
        by_contra hge
        rw [List.getElem?_eq_none (le_of_not_lt hge)] at hx'
        exact Option.noConfusion hx'
      by_cases hti : s.date_to_int d ≤ (i : ℤ)
      · have := htc i hti hylen
        rw [hx'] at this
        have hyc : y = cur := Option.some.inj this
        simp only [hti, if_pos, Option.map_some] at hget
        have hx0 : x = y + vol := (Option.some.inj hget).symm
        have hcur0 : 0 ≤ cur := (hr cur (List.mem_iff_getElem?.mpr
          ⟨i, by rw [hx', hyc]⟩)).1
        subst hx0
        subst hyc
        exact ⟨by linarith, by linarith⟩
      · simp only [hti, if_neg, Option.map_some, if_false] at hget
        have hx0 : x = y := (Option.some.inj hget).symm
        subst hx0
        exact hr x (List.mem_iff_getElem?.mpr ⟨i, hx'⟩)
  · intro i hti hlen
    rw [hcal, calAddFrom_length] at hlen
    rw [hcal, calAddFrom_getElem?, htc i hti hlen]
    simp [hti]

theorem withdraw_step {s s' : Storage} {vol : ℚ} {d : ℤ} {c : ℚ}
    (hr : slotsInRange s.calendar s.max_vol)
    (htc : tailConst s.calendar (s.date_to_int d) c)
    (hv : 0 ≤ vol)
    (h : s.withdraw vol d = .ok s') :
    slotsInRange s'.calendar s.max_vol ∧
    tailConst s'.calendar (s.date_to_int d) (c - vol) := by
  obtain ⟨cur, hc, hins, -, hcal, -⟩ := withdraw_ok h
  have hcc : cur = c := tailConst_lookup htc hc
  subst hcc
  constructor
  · intro x hx
    obtain ⟨i, hget⟩ := List.mem_iff_getElem?.mp hx
    rw [hcal, calAddFrom_getElem?] at hget
    cases hx' : s.calendar[i]? with
    | none => rw [hx'] at hget; exact Option.noConfusion hget
    | some y =>
      rw [hx'] at hget
      have hylen : i < s.calendar.length := by
        by_contra hge
        rw [List.getElem?_eq_none (le_of_not_lt hge)] at hx'
        exact Option.noConfusion hx'
      by_cases hti : s.date_to_int d ≤ (i : ℤ)
      · have := htc i hti hylen
        rw [hx'] at this
        have hyc : y = cur := Option.some.inj this
        simp only [hti, if_pos, Option.map_some] at hget
        have hx0 : x = y + -vol := (Option.some.inj hget).symm
        have hcurM : cur ≤ s.max_vol := (hr cur (List.mem_iff_getElem?.mpr
          ⟨i, by rw [hx', hyc]⟩)).2
        subst hx0
        subst hyc
        exact ⟨by linarith, by linarith⟩
      · simp only [hti, if_neg, Option.map_some, if_false] at hget
        have hx0 : x = y := (Option.some.inj hget).symm
        subst hx0
        exact hr x (List.mem_iff_getElem?.mpr ⟨i, hx'⟩)
  · intro i hti hlen
    rw [hcal, calAddFrom_length] at hlen
    rw [hcal, calAddFrom_getElem?, htc i hti hlen]
    simp [hti]
    ring

/-- The main induction: starting from a state whose calendar is within
range and constant from day offset `d - first_operation` on, a run of
operations with non-negative volumes and non-decreasing dates `≥ d`
that all succeed keeps every slot within `[0, max_vol]`. -/
theorem applyOps_invariant {ops : List Operation} {s s' : Storage}
    {d : ℤ} {c : ℚ}
    (hr : slotsInRange s.calendar s.max_vol)
    (htc : tailConst s.calendar (s.date_to_int d) c)
    (hd : ∀ op ∈ ops, d ≤ op.date)
    (hvol : ∀ op ∈ ops, 0 ≤ op.vol)
    (hsort : ops.Pairwise (fun a b => a.date ≤ b.date))
    (h : s.applyOps ops = .ok s') :
    slotsInRange s'.calendar s'.max_vol := by
  induction ops generalizing s d c with
  | nil =>
    simp only [Storage.applyOps] at h
    cases h
    exact hr
  | cons op rest ih =>
    simp only [Storage.applyOps] at h
    cases happ : s.applyOp op with
    | error e => rw [happ] at h; exact Except.noConfusion h
    | ok s1 =>
      rw [happ] at h
      obtain ⟨hm, -, -, -, -, -, -, hfo, -, -⟩ := applyOp_preserves happ
      have hdop : d ≤ op.date := hd op (List.mem_cons_self op rest)
      have htc' : tailConst s.calendar (s.date_to_int op.date) c :=
        tailConst_mono htc (by simp only [Storage.date_to_int]; omega)
      have hvop : 0 ≤ op.vol := hvol op (List.mem_cons_self op rest)
      have hstep : slotsInRange s1.calendar s.max_vol ∧
          ∃ c1, tailConst s1.calendar (s.date_to_int op.date) c1 := by
        unfold Storage.applyOp at happ
        split at happ
        · obtain ⟨h1, h2⟩ := inject_step hr htc' hvop happ
          exact ⟨h1, c + op.vol, h2⟩
        · obtain ⟨h1, h2⟩ := withdraw_step hr htc' hvop happ
          exact ⟨h1, c - op.vol, h2⟩
      obtain ⟨hr1, c1, htc1⟩ := hstep
      have hrest := List.pairwise_cons.mp hsort
      have hfoeq : s1.date_to_int op.date = s.date_to_int op.date := by
        simp only [Storage.date_to_int, hfo]
      refine ih (s := s1) (d := op.date) (c := c1) ?_ ?_ ?_ ?_ hrest.2 h
      · rwa [hm]
      · rwa [hfoeq]
      · exact fun op' hop' => hrest.1 op' hop'
      · exact fun op' hop' => hvol op' (List.mem_cons_of_mem op hop')

/-! ### Claim C1 -/

/-- C1: for every processed ledger (a ledger whose calendar has just
been zero-initialized by `process` via `initProcessed`, with
`0 ≤ max_vol`) and every sequence of inject/withdraw operations with
non-negative volumes applied in non-decreasing date order, in which
every operation passes its precondition checks (each prefix of the run
succeeds), every calendar slot's volume stays within `[0, max_vol]`
after each operation is applied. -/
theorem claim1_volume_invariant (s0 : Storage) (first last : ℤ)
    (ops : List Operation) (n : ℕ) (s' : Storage)
    (hmax : 0 ≤ s0.max_vol)
    (hvol : ∀ op ∈ ops, 0 ≤ op.vol)
    (hsort : ops.Pairwise (fun a b => a.date ≤ b.date))
    (happ : (s0.initProcessed first last).applyOps (ops.take n) =
      .ok s') :
    slotsInRange s'.calendar s'.max_vol := by
  have hvol' : ∀ op ∈ ops.take n, 0 ≤ op.vol :=
    fun op hop => hvol op (List.mem_of_mem_take hop)
  have hsort' : (ops.take n).Pairwise (fun a b => a.date ≤ b.date) :=
    hsort.sublist (List.take_sublist n ops)
  have hr : slotsInRange (s0.initProcessed first last).calendar
      (s0.initProcessed first last).max_vol := by
    intro x hx
    have hx0 : x = 0 := List.eq_of_mem_replicate hx
    subst hx0
    exact ⟨le_refl 0, hmax⟩
  cases htake : ops.take n with
  | nil =>
    rw [htake] at happ
    simp only [Storage.applyOps] at happ
    cases happ
    exact hr
  | cons a l =>
    rw [htake] at happ hvol' hsort'
    have hpc := List.pairwise_cons.mp hsort'
    have htc : tailConst (s0.initProcessed first last).calendar
        ((s0.initProcessed first last).date_to_int a.date) 0 := by
      intro i hti hlen
      simp only [Storage.initProcessed] at hlen ⊢
      simp only [List.length_replicate] at hlen
      simp [List.getElem?_replicate, hlen]
    refine applyOps_invariant hr htc ?_ hvol' hsort' happ
    intro op hop
    rcases List.mem_cons.mp hop with h | h
    · subst h; exact le_refl _
    · exact hpc.1 op h

/-- A concrete ledger for witnesses: fresh configuration, no calendar. -/
def sW : Storage :=
  { max_vol := 100, rate := 50, inj_cost := 1, wit_cost := 1,
    cost_per_day_per_unit := 1/10 }

/-- Two valid operations: inject 5 on day 0, withdraw 5 on day 1. -/
def opsW : List Operation := [⟨0, true, 5⟩, ⟨1, false, 5⟩]

/-- The state after applying `opsW` to the initialized ledger. -/
def sW2 : Storage :=
  { max_vol := 100, rate := 50, inj_cost := 1, wit_cost := 1,
    cost_per_day_per_unit := 1/10, cost_inj := 5, cost_wit := 5,
    calendar := [5, 0, 0], first_operation := 0, last_operation := 1 }

theorem claim1_volume_invariant_witness :
    slotsInRange sW2.calendar sW2.max_vol :=
  claim1_volume_invariant sW 0 1 opsW 2 sW2 (by norm_num [sW])
    (by decide) (by decide)
    (by norm_num [Storage.applyOps, Storage.applyOp, Storage.inject,
      Storage.withdraw, Storage.initProcessed, Storage.date_to_int,
      calLookup, calAddFrom, opsW, sW, sW2, List.replicate])

/-! ### Claim C2 -/

/-- C2: after `process` applies all operations (the sorted run
succeeds, ending in state `s2`), `process` succeeds if and only if the
volume at the calendar slot one day past the last operation's date
(day offset `last - first + 1`) is exactly zero; if that residual is
nonzero, `process` fails with an `UnbalancedStorage` error reporting
the residual volume. -/
theorem claim2_residual_check (s s2 : Storage)
    (inj_dates wit_dates : List ℤ) (inj_vols wit_vols : List ℚ)
    (f l : Operation)
    (hhead : (sortOps (mkOps inj_dates wit_dates inj_vols
      wit_vols)).head? = some f)
    (hlast : (sortOps (mkOps inj_dates wit_dates inj_vols
      wit_vols)).getLast? = some l)
    (happ : (s.initProcessed f.date l.date).applyOps
      (sortOps (mkOps inj_dates wit_dates inj_vols wit_vols)) =
      .ok s2) :
    (s.process inj_dates wit_dates inj_vols wit_vols = .ok s2 ↔
      calLookup s2.calendar (l.date - f.date + 1) = some 0) ∧
    ∀ r, calLookup s2.calendar (l.date - f.date + 1) = some r →
      r ≠ 0 →
      s.process inj_dates wit_dates inj_vols wit_vols =
        .error (.unbalancedStorage r) := by
  have hproc : s.process inj_dates wit_dates inj_vols wit_vols =
      s.processSorted
        (sortOps (mkOps inj_dates wit_dates inj_vols wit_vols))
        f.date l.date := by
    simp only [Storage.process]
    rw [hhead, hlast]
  rw [hproc]
  simp only [Storage.processSorted]
  rw [happ]
  constructor
  · cases hres : calLookup s2.calendar (l.date - f.date + 1) with
    | none => simp [hres]
    | some r =>
      by_cases hr : r = 0
      · subst hr
        simp [hres]
      · simp [hres, hr]
  · intro r hres hne
    simp [hres, hne]

theorem claim2_residual_check_witness :
    sW.process [0] [1] [5] [5] = .ok sW2 ↔
      calLookup sW2.calendar (1 - 0 + 1) = some 0 :=
  (claim2_residual_check sW sW2 [0] [1] [5] [5] ⟨0, true, 5⟩
    ⟨1, false, 5⟩ (by rfl) (by rfl)
    (by norm_num [Storage.applyOps, Storage.applyOp, Storage.inject,
      Storage.withdraw, Storage.initProcessed, Storage.date_to_int,
      calLookup, calAddFrom, sW, sW2, sortOps, mkOps,
      List.insertionSort, List.orderedInsert, List.replicate])).1

/-! ### Claim C4 -/

/-- C4: a successful `inject v d` adds exactly `v` to the volume at
`d`'s slot and every subsequent slot and leaves every earlier slot
unchanged; a successful `withdraw v d` subtracts exactly `v` from those
same slots and leaves earlier slots unchanged; both leave the
configuration fields (`max_vol`, `rate`, `inj_cost`, `wit_cost`,
`cost_per_day_per_unit`) unchanged. -/
theorem claim4_frame_effect (s si sw : Storage) (v : ℚ) (d : ℤ) :
    (s.inject v d = .ok si →
      (∀ i : ℕ, s.date_to_int d ≤ (i : ℤ) →
        si.calendar[i]? = (s.calendar[i]?).map (· + v)) ∧
      (∀ i : ℕ, (i : ℤ) < s.date_to_int d →
        si.calendar[i]? = s.calendar[i]?) ∧
      si.max_vol = s.max_vol ∧ si.rate = s.rate ∧
      si.inj_cost = s.inj_cost ∧ si.wit_cost = s.wit_cost ∧
      si.cost_per_day_per_unit = s.cost_per_day_per_unit) ∧
    (s.withdraw v d = .ok sw →
      (∀ i : ℕ, s.date_to_int d ≤ (i : ℤ) →
        sw.calendar[i]? = (s.calendar[i]?).map (· - v)) ∧
      (∀ i : ℕ, (i : ℤ) < s.date_to_int d →
        sw.calendar[i]? = s.calendar[i]?) ∧
      sw.max_vol = s.max_vol ∧ sw.rate = s.rate ∧
      sw.inj_cost = s.inj_cost ∧ sw.wit_cost = s.wit_cost ∧
      sw.cost_per_day_per_unit = s.cost_per_day_per_unit) := by
  constructor
  · intro h
    obtain ⟨cur, -, -, -, hcal, -, -, h7, h8, h9, h10, h11, -⟩ :=
      inject_ok h
    refine ⟨?_, ?_, h7, h8, h9, h10, h11⟩
    · intro i hti
      rw [hcal, calAddFrom_getElem?]
      simp [hti]
    · intro i hti
      rw [hcal, calAddFrom_getElem?]
      simp only [not_le.mpr hti, if_false]
      cases s.calendar[i]? <;> simp
  · intro h
    obtain ⟨cur, -, -, -, hcal, -, -, h7, h8, h9, h10, h11, -⟩ :=
      withdraw_ok h
    refine ⟨?_, ?_, h7, h8, h9, h10, h11⟩
    · intro i hti
      rw [hcal, calAddFrom_getElem?]
      simp only [hti, if_true, if_pos]
      cases s.calendar[i]? <;> simp [sub_eq_add_neg]
    · intro i hti
      rw [hcal, calAddFrom_getElem?]
      simp only [not_le.mpr hti, if_false]
      cases s.calendar[i]? <;> simp

/-- A ledger mid-run, with volume 3 stored on each of three days. -/
def sEx : Storage :=
  { max_vol := 100, rate := 50, inj_cost := 1, wit_cost := 1,
    cost_per_day_per_unit := 1/10, calendar := [3, 3, 3],
    first_operation := 0, last_operation := 1 }

/-- `sEx` after `inject 2` on day 1. -/
def sExInj : Storage :=
  { sEx with calendar := [3, 5, 5], cost_inj := 2 }

/-- `sEx` after `withdraw 2` on day 1. -/
def sExWit : Storage :=
  { sEx with calendar := [3, 1, 1], cost_wit := 2 }

theorem claim4_frame_effect_witness :
    sExInj.calendar[2]? = (sEx.calendar[2]?).map (· + 2) ∧
    sExWit.calendar[0]? = sEx.calendar[0]? ∧
    sExInj.max_vol = sEx.max_vol := by
  have h := claim4_frame_effect sEx sExInj sExWit 2 1
  have h1 := h.1 (by norm_num [Storage.inject, calLookup,
    Storage.date_to_int, calAddFrom, sEx, sExInj])
  have h2 := h.2 (by norm_num [Storage.withdraw, calLookup,
    Storage.date_to_int, calAddFrom, sEx, sExWit])
  exact ⟨h1.1 2 (by norm_num [Storage.date_to_int, sEx]),
    h2.2.1 0 (by norm_num [Storage.date_to_int, sEx]), h1.2.2.1⟩

/-! ### Claim C3 (corrected) -/

/-- A ledger with 45 stored on each day, `max_vol = 50`, `rate = 10`. -/
def sC3 : Storage :=
  { max_vol := 50, rate := 10, inj_cost := 1, wit_cost := 1,
    cost_per_day_per_unit := 0, calendar := [45, 45, 45],
    first_operation := 0, last_operation := 1 }

/-- C3 as stated is false: with `v = 20 > rate = 10` and stored volume
45 at day 0 of `sC3` (`max_vol = 50`), `inject` reports
`CapacityExceeded`, not `RateExceeded`, because the capacity check runs
first; likewise `withdraw 60` reports `InsufficientVolume`.  The error
therefore does depend on the stored volume at the slot. -/
theorem claim3_counterexample :
    sC3.rate < 20 ∧
    sC3.inject 20 0 = .error (.capacityExceeded 20 0) ∧
    sC3.inject 20 0 ≠ .error (.rateExceeded 0) ∧
    sC3.rate < 60 ∧
    sC3.withdraw 60 0 = .error (.insufficientVolume 60 0) ∧
    sC3.withdraw 60 0 ≠ .error (.rateExceeded 0) := by
  norm_num [Storage.inject, Storage.withdraw, calLookup,
    Storage.date_to_int, sC3]
  exact ⟨by decide, by decide⟩

/-- C3 amended: for every `v` strictly greater than `rate` and every
date `d` whose slot exists in the calendar, `inject(v, d)` and
`withdraw(v, d)` always fail, but the error is `RateExceeded` only when
the check performed first passes: for `inject` when `cur + v ≤ max_vol`
(otherwise `CapacityExceeded`), for `withdraw` when `cur - v ≥ 0`
(otherwise `InsufficientVolume`). -/
theorem claim3_amended_rate_errors (s : Storage) (v : ℚ) (d : ℤ)
    (cur : ℚ)
    (hcur : calLookup s.calendar (s.date_to_int d) = some cur)
    (hv : s.rate < v) :
    (∃ e, s.inject v d = .error e) ∧
    (∃ e, s.withdraw v d = .error e) ∧
    (cur + v ≤ s.max_vol → s.inject v d = .error (.rateExceeded d)) ∧
    (0 ≤ cur - v → s.withdraw v d = .error (.rateExceeded d)) ∧
    (s.max_vol < cur + v →
      s.inject v d = .error (.capacityExceeded v d)) ∧
    (cur - v < 0 →
      s.withdraw v d = .error (.insufficientVolume v d)) := by
  have hinj : s.inject v d = if cur + v > s.max_vol
      then .error (.capacityExceeded v d)
      else .error (.rateExceeded d) := by
    simp only [Storage.inject, hcur]
    by_cases hcap : cur + v > s.max_vol
    · simp [hcap]
    · simp [hcap, hv]
  have hwit : s.withdraw v d = if cur - v < 0
      then .error (.insufficientVolume v d)
      else .error (.rateExceeded d) := by
    simp only [Storage.withdraw, hcur]
    by_cases hins : cur - v < 0
    · simp [hins]
    · simp [hins, hv]
  refine ⟨?_, ?_, ?_, ?_, ?_, ?_⟩
  · rw [hinj]
    split
    · exact ⟨_, rfl⟩
    · exact ⟨_, rfl⟩
  · rw [hwit]
    split
    · exact ⟨_, rfl⟩
    · exact ⟨_, rfl⟩
  · intro hle
    rw [hinj, if_neg (not_lt.mpr hle)]
  · intro h0
    rw [hwit, if_neg (not_lt.mpr (by linarith))]
  · intro hcap
    rw [hinj, if_pos hcap]
  · intro hins
    rw [hwit, if_pos hins]

theorem claim3_amended_rate_errors_witness :
    ∃ e, sC3.inject 20 0 = .error e :=
  (claim3_amended_rate_errors sC3 20 0 45
    (by norm_num [calLookup, sC3, Storage.date_to_int])
    (by norm_num [sC3])).1

/-! ### Claim C10 -/

/-- C10: on a ledger whose calendar has a slot for `d` holding `cur`
(and whose prediction state is well-formed), `inject(v, d)` fails iff
`cur + v` exceeds `max_vol` or `v` exceeds `rate`, with the capacity
check performed first; `withdraw(v, d)` fails iff `cur - v` is negative
or `v` exceeds `rate`, with the sufficiency check performed first;
neither operation validates `v ≥ 0`: any negative `v` passes the rate
check when `rate ≥ 0`, and a negative-volume inject is accepted
whenever the capacity check passes, strictly decreasing the volume of
every slot from `d`'s on. -/
theorem claim10_failure_characterization (s : Storage) (v : ℚ) (d : ℤ)
    (cur : ℚ)
    (hcur : calLookup s.calendar (s.date_to_int d) = some cur)
    (hpf : s.predict = true → s.price_func.isSome) :
    ((∃ e, s.inject v d = .error e) ↔
      (s.max_vol < cur + v ∨ s.rate < v)) ∧
    (s.max_vol < cur + v →
      s.inject v d = .error (.capacityExceeded v d)) ∧
    ((∃ e, s.withdraw v d = .error e) ↔
      (cur - v < 0 ∨ s.rate < v)) ∧
    (cur - v < 0 →
      s.withdraw v d = .error (.insufficientVolume v d)) ∧
    (v < 0 → 0 ≤ s.rate → cur + v ≤ s.max_vol →
      ∃ s', s.inject v d = .ok s' ∧
        ∀ i : ℕ, ∀ y, s.date_to_int d ≤ (i : ℤ) →
          s.calendar[i]? = some y →
          ∃ y', s'.calendar[i]? = some y' ∧ y' < y) := by
  have hisucc : ∀ (_ : ¬(cur + v > s.max_vol)) (_ : ¬(v > s.rate)),
      ∃ s', s.inject v d = .ok s' := by
    intro hcap hrate
    simp only [Storage.inject, hcur, if_neg hcap, if_neg hrate]
    by_cases hp : s.predict = true
    · obtain ⟨f, hf⟩ := Option.isSome_iff_exists.mp (hpf hp)
      exact ⟨_, by rw [if_pos hp, hf]⟩
    · exact ⟨_, by rw [if_neg hp]⟩
  have hwsucc : ∀ (_ : ¬(cur - v < 0)) (_ : ¬(v > s.rate)),
      ∃ s', s.withdraw v d = .ok s' := by
    intro hins hrate
    simp only [Storage.withdraw, hcur, if_neg hins, if_neg hrate]
    by_cases hp : s.predict = true
    · obtain ⟨f, hf⟩ := Option.isSome_iff_exists.mp (hpf hp)
      exact ⟨_, by rw [if_pos hp, hf]⟩
    · exact ⟨_, by rw [if_neg hp]⟩
  refine ⟨?_, ?_, ?_, ?_, ?_⟩
  · constructor
    · rintro ⟨e, he⟩
      by_contra hcon
      push_neg at hcon
      obtain ⟨s', hs'⟩ := hisucc (not_lt.mpr hcon.1)
        (not_lt.mpr hcon.2)
      rw [hs'] at he
      exact Except.noConfusion he
    · rintro (h | h)
      · exact ⟨.capacityExceeded v d,
          by simp only [Storage.inject, hcur, if_pos h]⟩
      · by_cases hcap : cur + v > s.max_vol
        · exact ⟨.capacityExceeded v d,
            by simp only [Storage.inject, hcur, if_pos hcap]⟩
        · exact ⟨.rateExceeded d, by simp only [Storage.inject, hcur,
            if_neg hcap, if_pos h]⟩
  · intro h
    simp only [Storage.inject, hcur, if_pos h]
  · constructor
    · rintro ⟨e, he⟩
      by_contra hcon
      push_neg at hcon
      obtain ⟨s', hs'⟩ := hwsucc (not_lt.mpr hcon.1)
        (not_lt.mpr hcon.2)
      rw [hs'] at he
      exact Except.noConfusion he
    · rintro (h | h)
      · exact ⟨.insufficientVolume v d,
          by simp only [Storage.withdraw, hcur, if_pos h]⟩
      · by_cases hins : cur - v < 0
        · exact ⟨.insufficientVolume v d,
            by simp only [Storage.withdraw, hcur, if_pos hins]⟩
        · exact ⟨.rateExceeded d, by simp only [Storage.withdraw, hcur,
            if_neg hins, if_pos h]⟩
  · intro h
    simp only [Storage.withdraw, hcur, if_pos h]
  · intro hv hr hcap
    obtain ⟨s', hs'⟩ := hisucc (not_lt.mpr hcap)
      (not_lt.mpr (by linarith))
    refine ⟨s', hs', ?_⟩
    obtain ⟨cur', -, -, -, hcal, -⟩ := inject_ok hs'
    intro i y hti hy
    rw [hcal, calAddFrom_getElem?, hy]
    exact ⟨y + v, by simp [hti], by linarith⟩

theorem claim10_failure_characterization_witness :
    ∃ e, sEx.inject 200 1 = .error e :=
  ((claim10_failure_characterization sEx 200 1 3
    (by norm_num [calLookup, sEx, Storage.date_to_int])
    (by intro h; simp [sEx] at h)).1).mpr
    (Or.inr (by norm_num [sEx]))

/-! ### Claim C5 -/

/-- The scenario ledger: `max_vol=100, rate=50, inj_cost=1, wit_cost=1,
cost_per_day_per_unit=0.1`. -/
def sC5 : Storage :=
  { max_vol := 100, rate := 50, inj_cost := 1, wit_cost := 1,
    cost_per_day_per_unit := 1/10 }

/-- `sC5` after processing: inject 50 on day 0, withdraw 50 on day
10. -/
def sC5done : Storage :=
  { max_vol := 100, rate := 50, inj_cost := 1, wit_cost := 1,
    cost_per_day_per_unit := 1/10, cost_inj := 50, cost_wit := 50,
    calendar := [50, 50, 50, 50, 50, 50, 50, 50, 50, 50, 0, 0],
    first_operation := 0, last_operation := 10 }

/-- C5: for a processed ledger with at least one nonzero-volume slot,
`cost_overview` computes `n_days` as the count of nonzero slots,
`avg_vol = sum / n_days`, `cost_storage = cost_per_day_per_unit *
avg_vol * n_days`, `total_cost = cost_inj + cost_wit + cost_storage`
and `avg_cost = total_cost / n_days`; in the concrete scenario
(`max_vol=100, rate=50, inj_cost=1, wit_cost=1,
cost_per_day_per_unit=0.1`, inject 50 on day 0, withdraw 50 on day 10)
`process` succeeds with `cost_inj=50`, `cost_wit=50`, volume 50 on days
0..9 and 0 elsewhere, `n_days=10`, `avg_vol=50`, `cost_storage=50`,
`total_cost=150`. -/
theorem claim5_cost_overview (s : Storage)
    (h : 0 < s.calendar.countP (fun v => decide (v ≠ 0))) :
    (s.cost_overview.n_days =
        s.calendar.countP (fun v => decide (v ≠ 0)) ∧
      s.cost_overview.avg_vol =
        s.calendar.sum / (s.cost_overview.n_days : ℚ) ∧
      s.cost_overview.cost_storage = s.cost_per_day_per_unit *
        s.cost_overview.avg_vol * (s.cost_overview.n_days : ℚ) ∧
      s.cost_overview.total_cost =
        s.cost_inj + s.cost_wit + s.cost_overview.cost_storage ∧
      s.cost_overview.avg_cost =
        s.cost_overview.total_cost / (s.cost_overview.n_days : ℚ)) ∧
    (sC5.process [0] [10] [50] [50] = .ok sC5done ∧
      sC5done.cost_inj = 50 ∧ sC5done.cost_wit = 50 ∧
      sC5done.calendar = [50, 50, 50, 50, 50, 50, 50, 50, 50, 50, 0, 0] ∧
      sC5done.cost_overview.n_days = 10 ∧
      sC5done.cost_overview.avg_vol = 50 ∧
      sC5done.cost_overview.cost_storage = 50 ∧
      sC5done.cost_overview.total_cost = 150) := by
  refine ⟨⟨rfl, rfl, rfl, rfl, rfl⟩, ?_, rfl, rfl, rfl, ?_, ?_, ?_, ?_⟩
  · norm_num [Storage.process, Storage.processSorted, Storage.applyOps,
      Storage.applyOp, Storage.inject, Storage.withdraw,
      Storage.initProcessed, Storage.date_to_int, calLookup, calAddFrom,
      sC5, sC5done, sortOps, mkOps, List.insertionSort,
      List.orderedInsert, List.replicate]
    rfl
  · norm_num [Storage.cost_overview, sC5done]
  · norm_num [Storage.cost_overview, sC5done]
  · norm_num [Storage.cost_overview, sC5done]
  · norm_num [Storage.cost_overview, sC5done]

theorem claim5_cost_overview_witness :
    sC5done.cost_overview.avg_cost =
      sC5done.cost_overview.total_cost /
        (sC5done.cost_overview.n_days : ℚ) :=
  (claim5_cost_overview sC5done (by decide)).1.2.2.2.2

/-! ### Claim C6 -/

/-- C6: for a processed ledger with at least one nonzero-volume slot,
`net_gain` computes its storage cost as `cost_per_day_per_unit *
avg_vol` WITHOUT the `n_days` factor — equal to `cost_overview`'s
`cost_storage` divided by `n_days` — so `total_cost = cost_inj +
cost_wit + cost_per_day_per_unit * avg_vol`, and it reports `balance`,
`total_cost` and the net gain `balance - total_cost`. -/
theorem claim6_net_gain (s : Storage)
    (h : 0 < s.calendar.countP (fun v => decide (v ≠ 0))) :
    s.net_gain.balance = s.balance ∧
    s.net_gain.total_cost = s.cost_inj + s.cost_wit +
      s.cost_per_day_per_unit * (s.calendar.sum /
        (s.calendar.countP (fun v => decide (v ≠ 0)) : ℚ)) ∧
    s.net_gain.total_cost = s.cost_inj + s.cost_wit +
      s.cost_overview.cost_storage / (s.cost_overview.n_days : ℚ) ∧
    s.net_gain.net = s.balance - s.net_gain.total_cost := by
  have hn : ((s.calendar.countP (fun v => decide (v ≠ 0)) : ℕ) : ℚ)
      ≠ 0 := Nat.cast_ne_zero.mpr (by omega)
  refine ⟨rfl, rfl, ?_, rfl⟩
  simp only [Storage.net_gain, Storage.cost_overview]
  rw [mul_div_cancel_right₀ _ hn]

theorem claim6_net_gain_witness :
    sC5done.net_gain.net =
      sC5done.balance - sC5done.net_gain.total_cost :=
  (claim6_net_gain sC5done (by decide)).2.2.2

/-! ### Claim C7 -/

/-- Balance change of a whole run in prediction mode. -/
theorem applyOps_balance {ops : List Operation} {s s' : Storage}
    {f : ℤ → ℚ}
    (hp : s.predict = true) (hf : s.price_func = some f)
    (h : s.applyOps ops = .ok s') :
    s'.balance = s.balance +
      ((ops.filter (fun op => !op.inj)).map
        (fun op => f op.date * op.vol)).sum -
      ((ops.filter (fun op => op.inj)).map
        (fun op => f op.date * op.vol)).sum := by
  induction ops generalizing s with
  | nil =>
    simp only [Storage.applyOps] at h
    cases h
    simp
  | cons op rest ih =>
    simp only [Storage.applyOps] at h
    cases happ : s.applyOp op with
    | error e => rw [happ] at h; exact Except.noConfusion h
    | ok s1 =>
      rw [happ] at h
      obtain ⟨-, -, -, -, -, hpred, hpf, -, -, -⟩ :=
        applyOp_preserves happ
      have hp1 : s1.predict = true := by rw [hpred, hp]
      have hf1 : s1.price_func = some f := by rw [hpf, hf]
      have hbal : s1.balance = s.balance +
          (if op.inj then -(f op.date * op.vol)
           else f op.date * op.vol) := by
        unfold Storage.applyOp at happ
        by_cases hio : op.inj
        · rw [if_pos hio] at happ
          obtain ⟨-, -, -, -, -, -, -, -, -, -, -, -, -, -, -, -, -,
            hbT⟩ := inject_ok happ
          rw [hbT f hp hf, if_pos hio]
          ring
        · rw [if_neg hio] at happ
          obtain ⟨-, -, -, -, -, -, -, -, -, -, -, -, -, -, -, -, -,
            hbT⟩ := withdraw_ok happ
          rw [hbT f hp hf, if_neg hio]
      rw [ih hp1 hf1 h, hbal]
      by_cases hio : op.inj <;>
        simp only [List.filter_cons, hio, Bool.not_true, Bool.not_false,
          if_pos, if_neg, Bool.false_eq_true, not_false_eq_true,
          List.map_cons, List.sum_cons, ite_true, ite_false] <;>
        ring

/-- The prediction-mode scenario ledger: zero costs, constant price 2
supplied through `prediction_on`. -/
def sC7 : Storage :=
  Storage.prediction_on
    { max_vol := 100, rate := 50, inj_cost := 0, wit_cost := 0,
      cost_per_day_per_unit := 0 }
    (fun _ => 2)

/-- `sC7` after processing: inject 10 on day 0, withdraw 10 on day 5;
the balance is `-2*10 + 2*10 = 0`. -/
def sC7done : Storage :=
  { max_vol := 100, rate := 50, inj_cost := 0, wit_cost := 0,
    cost_per_day_per_unit := 0, predict := true,
    price_func := some (fun _ => 2),
    calendar := [10, 10, 10, 10, 10, 0, 0],
    first_operation := 0, last_operation := 5 }

/-- C7: while prediction mode is on with price function `f`, every
successful `inject v d` decreases `balance` by `f d * v` and every
successful `withdraw v d` increases it by `f d * v`; hence after a
whole run the balance equals the sum of `f d * v` over withdrawals
minus the sum over injections (which `gross_gain` reports); with
constant price 2, injecting 10 and later withdrawing 10 yields balance
0. -/
theorem claim7_prediction_balance (s si sw sr : Storage) (f : ℤ → ℚ)
    (v : ℚ) (d : ℤ) (ops : List Operation)
    (hp : s.predict = true) (hf : s.price_func = some f) :
    (s.inject v d = .ok si → si.balance = s.balance - f d * v) ∧
    (s.withdraw v d = .ok sw → sw.balance = s.balance + f d * v) ∧
    (s.applyOps ops = .ok sr →
      sr.balance = s.balance +
        ((ops.filter (fun op => !op.inj)).map
          (fun op => f op.date * op.vol)).sum -
        ((ops.filter (fun op => op.inj)).map
          (fun op => f op.date * op.vol)).sum) ∧
    (∃ s7, sC7.process [0] [5] [10] [10] = .ok s7 ∧
      s7.gross_gain = .ok 0) := by
  refine ⟨?_, ?_, fun h => applyOps_balance hp hf h, ?_⟩
  · intro h
    obtain ⟨-, -, -, -, -, -, -, -, -, -, -, -, -, -, -, -, -, hbT⟩ :=
      inject_ok h
    exact hbT f hp hf
  · intro h
    obtain ⟨-, -, -, -, -, -, -, -, -, -, -, -, -, -, -, -, -, hbT⟩ :=
      withdraw_ok h
    exact hbT f hp hf
  · refine ⟨sC7done, ?_, by rfl⟩
    norm_num [Storage.process, Storage.processSorted, Storage.applyOps,
      Storage.applyOp, Storage.inject, Storage.withdraw,
      Storage.initProcessed, Storage.date_to_int, calLookup, calAddFrom,
      sC7, sC7done, Storage.prediction_on, sortOps, mkOps,
      List.insertionSort, List.orderedInsert, List.replicate]
    rfl

theorem claim7_prediction_balance_witness :
    ∃ s7, sC7.process [0] [5] [10] [10] = .ok s7 ∧
      s7.gross_gain = .ok 0 :=
  (claim7_prediction_balance sC7done sC7done sC7done sC7done
    (fun _ => 2) 0 0 [] rfl rfl).2.2.2

/-! ### Claim C9 (corrected) -/

/-- The constant price function used in the C9 counterexample. -/
def pf2 : ℤ → ℚ := fun _ => 2

/-- C9 as stated is false in one conjunct: `prediction_off` only sets
`predict = False`; it does not clear the stored price-function
reference, which is still `some pf2` after turning prediction off. -/
theorem claim9_counterexample :
    ((sEx.prediction_on pf2).prediction_off).predict = false ∧
    ((sEx.prediction_on pf2).prediction_off).price_func = some pf2 ∧
    ((sEx.prediction_on pf2).prediction_off).price_func ≠ none := by
  refine ⟨rfl, rfl, ?_⟩
  simp [Storage.prediction_on, Storage.prediction_off]

/-- C9 amended: calling `prediction_off` turns the prediction flag off
while leaving the stored price-function reference in place (it is NOT
cleared), and leaves `balance`, `cost_inj` and `cost_wit` unchanged;
subsequent successful `inject`/`withdraw` calls no longer modify
`balance`. -/
theorem claim9_amended_prediction_off (s s1 s2 : Storage) (v : ℚ)
    (d : ℤ) :
    (s.prediction_off).predict = false ∧
    (s.prediction_off).price_func = s.price_func ∧
    (s.prediction_off).balance = s.balance ∧
    (s.prediction_off).cost_inj = s.cost_inj ∧
    (s.prediction_off).cost_wit = s.cost_wit ∧
    ((s.prediction_off).inject v d = .ok s1 →
      s1.balance = s.balance) ∧
    ((s.prediction_off).withdraw v d = .ok s2 →
      s2.balance = s.balance) := by
  refine ⟨rfl, rfl, rfl, rfl, rfl, ?_, ?_⟩
  · intro h
    obtain ⟨-, -, -, -, -, -, -, -, -, -, -, -, -, -, -, -, hbF, -⟩ :=
      inject_ok h
    exact hbF rfl
  · intro h
    obtain ⟨-, -, -, -, -, -, -, -, -, -, -, -, -, -, -, -, hbF, -⟩ :=
      withdraw_ok h
    exact hbF rfl

/-- `(sEx.prediction_on pf2).prediction_off` after `inject 2` on
day 1. -/
def sExPOInj : Storage :=
  { sEx with price_func := some pf2, calendar := [3, 5, 5],
             cost_inj := 2 }

theorem claim9_amended_prediction_off_witness :
    sExPOInj.balance = (sEx.prediction_on pf2).balance :=
  (claim9_amended_prediction_off (sEx.prediction_on pf2) sExPOInj
    sExPOInj 2 1).2.2.2.2.2.1
    (by norm_num [Storage.inject, Storage.prediction_on,
      Storage.prediction_off, calLookup, Storage.date_to_int,
      calAddFrom, sEx, sExPOInj])

end CommodityStorage
